import Mathlib

/-!
Shallow embedding of the configuration-management core of the repository
(`src/config/base.py`, `src/config/manager.py`, `src/config/implementations.py`)
and proofs of the specified properties.

Python dictionaries are modelled as insertion-ordered association lists with
unique keys (`List (String × α)`); mutation is modelled by explicit state
passing; Python exceptions are modelled with `Except`.
-/

namespace BK

/-! ## Association lists: the model of Python `dict` -/

/-- `d[k]`-lookup: first binding of `k`, as Python dicts hold unique keys. -/
def alookup {α : Type} : List (String × α) → String → Option α
  | [], _ => none
  | (k, v) :: rest, key => if k = key then some v else alookup rest key

/-- `k in d` membership test. -/
def amem {α : Type} (d : List (String × α)) (k : String) : Bool :=
  (alookup d k).isSome

/-- `d[k] = v` assignment: replaces the binding in place when the key exists
(preserving insertion order), otherwise appends, as Python dicts do. -/
def aset {α : Type} : List (String × α) → String → α → List (String × α)
  | [], key, v => [(key, v)]
  | (k, w) :: rest, key, v =>
      if k = key then (k, v) :: rest else (k, w) :: aset rest key v

/-- `del d[k]`: removes the binding of `k`. -/
def aerase {α : Type} : List (String × α) → String → List (String × α)
  | [], _ => []
  | (k, w) :: rest, key => if k = key then rest else (k, w) :: aerase rest key

theorem alookup_aset_self {α : Type} (d : List (String × α)) (k : String) (v : α) :
    alookup (aset d k v) k = some v := by
  induction d with
  | nil => simp [aset, alookup]
  | cons hd tl ih =>
      obtain ⟨k', w⟩ := hd
      by_cases h : k' = k <;> simp [aset, alookup, h, ih]

theorem alookup_aset_ne {α : Type} (d : List (String × α)) (k k' : String) (v : α)
    (h : k' ≠ k) : alookup (aset d k v) k' = alookup d k' := by
  induction d with
  | nil => simp [aset, alookup, Ne.symm h]
  | cons hd tl ih =>
      obtain ⟨k₀, w⟩ := hd
      by_cases h₀ : k₀ = k <;> by_cases h₁ : k₀ = k' <;>
        simp_all [aset, alookup]

theorem amem_aset_self {α : Type} (d : List (String × α)) (k : String) (v : α) :
    amem (aset d k v) k = true := by
  simp [amem, alookup_aset_self]

theorem amem_aset {α : Type} (d : List (String × α)) (k k' : String) (v : α)
    (h : amem d k' = true) : amem (aset d k v) k' = true := by
  by_cases hk : k' = k
  · subst hk; simp [amem, alookup_aset_self]
  · simpa [amem, alookup_aset_ne d k k' v hk] using h

/-! ## Python string primitives

Models of the Python string operations the code uses, implemented by
structural recursion over the character list (so that concrete instances
evaluate inside the kernel). `lower()` is modelled over ASCII; environment
variable names and the sensitive-key patterns are ASCII. -/

/-- Model of Python `str.lower()`. -/
def pyLower (s : String) : String :=
  String.mk (s.toList.map Char.toLower)

/-- Model of Python `str.startswith(p)`. -/
def strStartsWith (s p : String) : Bool :=
  p.toList.isPrefixOf s.toList

/-- Model of Python slicing `s[n:]` (by character count, as Python). -/
def pyDrop (s : String) (n : Nat) : String :=
  String.mk (s.toList.drop n)

/-- Substring occurrence on character lists. -/
def listContainsSub : List Char → List Char → Bool
  | hay, pat =>
      pat.isPrefixOf hay ||
        match hay with
        | [] => false
        | _ :: t => listContainsSub t pat

/-- Model of Python `p in s` (substring containment). -/
def strContains (s p : String) : Bool :=
  listContainsSub s.toList p.toList

/-! ## Python values

`PyValue` models the configuration value universe
(`ConfigValue = Union[str, int, float, bool, Dict, List]` plus `None`).
Python floats are modelled exactly: a finite value is an exact rational
(IEEE-754 rounding is not modelled; no property below depends on it),
plus the special values `inf`, `-inf` and `nan`. -/

inductive PyFloat where
  | finite (q : ℚ)
  | inf (neg : Bool)
  | nan
deriving Repr, DecidableEq

inductive PyValue where
  | none
  | bool (b : Bool)
  | int (n : ℤ)
  | float (f : PyFloat)
  | str (s : String)
  | list (xs : List PyValue)
  | dict (d : List (String × PyValue))
deriving Inhabited

/-- Model of the Python `is None` test. -/
def PyValue.isNone : PyValue → Bool
  | .none => true
  | _ => false

/-- Rendering of a finite float for `str()`. Python prints the shortest
round-tripping decimal; this model prints the exact rational (integral values
with a trailing `.0` as Python does). No property below depends on the exact
digits of a rendered float. -/
def PyFloat.render : PyFloat → String
  | .finite q => if q.den = 1 then toString q.num ++ ".0" else toString q
  | .inf neg => if neg then "-inf" else "inf"
  | .nan => "nan"

mutual

/-- Model of Python `repr(value)`: scalars as Python prints them, strings
quoted, containers rendered element-wise. -/
def pyRepr : PyValue → String
  | .none => "None"
  | .bool b => if b then "True" else "False"
  | .int n => toString n
  | .float f => f.render
  | .str s => "\x27" ++ s ++ "\x27"
  | .list xs => "[" ++ ", ".intercalate (pyReprList xs) ++ "]"
  | .dict d => "\x7b" ++ ", ".intercalate (pyReprDict d) ++ "\x7d"

def pyReprList : List PyValue → List String
  | [] => []
  | v :: rest => pyRepr v :: pyReprList rest

def pyReprDict : List (String × PyValue) → List String
  | [] => []
  | (k, v) :: rest => ("\x27" ++ k ++ "\x27: " ++ pyRepr v) :: pyReprDict rest

end

/-- Model of Python `str(value)` (used by `BaseConfig.set`/`get` before
encrypt/decrypt). Strings render unquoted; containers render their
elements with `repr`, as Python does; other scalars agree with `repr`. -/
def pyStr : PyValue → String
  | .str s => s
  | .list xs => "[" ++ ", ".intercalate (pyReprList xs) ++ "]"
  | .dict d => "\x7b" ++ ", ".intercalate (pyReprDict d) ++ "\x7d"
  | v => pyRepr v

/-- The numeric reading Python gives `bool`/`int`/`float` operands of `==`
(`True == 1`, `1 == 1.0`). -/
inductive NumRep where
  | fin (q : ℚ)
  | inf (neg : Bool)
  | nan
deriving DecidableEq

def numRep : PyValue → Option NumRep
  | .bool b => some (.fin (if b then 1 else 0))
  | .int n => some (.fin n)
  | .float (.finite q) => some (.fin q)
  | .float (.inf neg) => some (.inf neg)
  | .float .nan => some .nan
  | _ => Option.none

/-- Numeric equality: `nan` is not equal to anything, including itself. -/
def numEq : NumRep → NumRep → Bool
  | .fin a, .fin b => a = b
  | .inf a, .inf b => a = b
  | _, _ => false

mutual

/-- Model of Python `==` on configuration values (used by the schema
validator `value not in choices` check). Numbers compare by value across
`bool`/`int`/`float`. Dict equality is modelled pointwise in insertion order
(Python compares dicts key-order-insensitively; no property below compares
dicts). -/
def pyEq : PyValue → PyValue → Bool
  | .none, .none => true
  | .str a, .str b => a = b
  | .list xs, .list ys => pyEqList xs ys
  | .dict a, .dict b => pyEqDict a b
  | a, b =>
      match numRep a, numRep b with
      | some ra, some rb => numEq ra rb
      | _, _ => false

def pyEqList : List PyValue → List PyValue → Bool
  | [], [] => true
  | x :: xs, y :: ys => pyEq x y && pyEqList xs ys
  | _, _ => false

def pyEqDict : List (String × PyValue) → List (String × PyValue) → Bool
  | [], [] => true
  | (k, v) :: xs, (k', v') :: ys => k = k' && pyEq v v' && pyEqDict xs ys
  | _, _ => false

end

/-- Python membership `value in choices` (via `==`). -/
def pyMem (v : PyValue) : List PyValue → Bool
  | [] => false
  | c :: rest => pyEq v c || pyMem v rest

/-- The Python types the schema validator mentions. -/
inductive PyType where
  | tStr | tInt | tFloat | tBool | tList | tDict
deriving DecidableEq, Repr

/-- Model of `isinstance(value, T)`. `bool` is a subclass of `int` in
Python, so a boolean is an instance of `int`. -/
def isinst : PyValue → PyType → Bool
  | .bool _, .tBool => true
  | .bool _, .tInt => true
  | .int _, .tInt => true
  | .float _, .tFloat => true
  | .str _, .tStr => true
  | .list _, .tList => true
  | .dict _, .tDict => true
  | _, _ => false

def PyType.name : PyType → String
  | .tStr => "str"
  | .tInt => "int"
  | .tFloat => "float"
  | .tBool => "bool"
  | .tList => "list"
  | .tDict => "dict"

/-! ## Dotted-path nested access (`BaseConfig._get_nested_value` /
`_set_nested_value`, src/config/base.py lines 443-466) -/

/-- The accumulator loop behind `key.split('.')`. -/
def splitDotChars : List Char → List Char → List String
  | [], acc => [String.mk acc.reverse]
  | c :: rest, acc =>
      if c = '.' then String.mk acc.reverse :: splitDotChars rest []
      else splitDotChars rest (c :: acc)

/-- Model of Python `key.split('.')`: the empty string splits to `[""]`,
adjacent dots produce empty segments. -/
def splitDot (key : String) : List String :=
  splitDotChars key.toList []

/-- The descent loop of `_get_nested_value`: starting from a value, follow
the path segments; any missing key or non-dict intermediate yields `none`
(the caller then substitutes the default). -/
def getGo : List String → PyValue → Option PyValue
  | [], v => some v
  | k :: ks, .dict d =>
      match alookup d k with
      | some v => getGo ks v
      | Option.none => Option.none
  | _ :: _, _ => Option.none

/-- `_get_nested_value(key, default)` on the top-level data dict, without the
default substituted. -/
def getNested (data : List (String × PyValue)) (key : String) : Option PyValue :=
  getGo (splitDot key) (.dict data)

/-- The write loop of `_set_nested_value`: descends `keys[:-1]`, creating
empty dicts for missing segments; descending into (or assigning under) an
existing non-dict value raises `TypeError` in Python, modelled as `.error`.
An error can only occur before any dict has been created, so the functional
reading (no partial mutation on error) is faithful. -/
def setGo : List String → PyValue → List (String × PyValue) →
    Except Unit (List (String × PyValue))
  | [], _, _ => .error ()
  | [k], v, d => .ok (aset d k v)
  | k :: k' :: ks, v, d =>
      match alookup d k with
      | Option.none =>
          match setGo (k' :: ks) v [] with
          | .ok sub => .ok (aset d k (.dict sub))
          | .error e => .error e
      | some (.dict sub) =>
          match setGo (k' :: ks) v sub with
          | .ok sub' => .ok (aset d k (.dict sub'))
          | .error e => .error e
      | some _ => .error ()

/-- `_set_nested_value(key, value)` on the top-level data dict. -/
def setNested (data : List (String × PyValue)) (key : String) (v : PyValue) :
    Except Unit (List (String × PyValue)) :=
  setGo (splitDot key) v data

/-- `_merge_data` (src/config/base.py lines 468-477): recursive dict merge,
nested dicts merge recursively, any other value overwrites. -/
def mergeDict : List (String × PyValue) → List (String × PyValue) →
    List (String × PyValue)
  | tgt, [] => tgt
  | tgt, (k, v) :: rest =>
      let tgt' :=
        match alookup tgt k, v with
        | some (.dict td), .dict sd => aset tgt k (.dict (mergeDict td sd))
        | _, _ => aset tgt k v
      mergeDict tgt' rest

/-! ## Enums, metadata and errors (src/config/base.py lines 18-141) -/

inductive ConfigSource where
  | environment | file | database | remote | memory
deriving DecidableEq, Repr

/-- `ConfigSource.value` — the string payload of the Python enum member. -/
def ConfigSource.value : ConfigSource → String
  | .environment => "environment"
  | .file => "file"
  | .database => "database"
  | .remote => "remote"
  | .memory => "memory"

/-- `ConfigSource(s)` — the enum constructor, `ValueError` (`none`) on an
unknown payload. -/
def ConfigSource.ofValue (s : String) : Option ConfigSource :=
  if s = "environment" then some .environment
  else if s = "file" then some .file
  else if s = "database" then some .database
  else if s = "remote" then some .remote
  else if s = "memory" then some .memory
  else Option.none

inductive ConfigPriority where
  | low | medium | high | critical
deriving DecidableEq, Repr

def ConfigPriority.value : ConfigPriority → Nat
  | .low => 1
  | .medium => 2
  | .high => 3
  | .critical => 4

def ConfigPriority.ofValue (n : Nat) : Option ConfigPriority :=
  if n = 1 then some .low
  else if n = 2 then some .medium
  else if n = 3 then some .high
  else if n = 4 then some .critical
  else Option.none

/-- `ConfigMetadata` dataclass. Timestamps (`datetime`) are modelled as
abstract instants (`Nat`); nothing below computes with them. -/
structure ConfigMetadata where
  source : ConfigSource
  priority : ConfigPriority
  createdAt : Nat
  updatedAt : Option Nat := Option.none
  version : String := "1.0.0"
  encrypted : Bool := false
  cached : Bool := false
deriving DecidableEq, Repr

/-- The metadata record `BaseConfig.set` creates when the caller supplies
none, and the one `load_defaults`/`load` stamp on default values. Note
`encrypted` keeps its dataclass default `False`. -/
def defaultMeta (src : ConfigSource) (pr : ConfigPriority) (now : Nat) :
    ConfigMetadata :=
  { source := src, priority := pr, createdAt := now }

/-- The exception taxonomy. Python carries formatted message strings; the
model keeps the structured payload (e.g. the error list) where the code
formats one into the message. `typeErr`/`valueErr` model the builtin
`TypeError`/`ValueError` that nested writes and enum constructors can
raise; `cacheErr` models an exception escaping a cache plugin call. -/
inductive ConfigError where
  | readonlyErr (msg : String)
  | validationErr (errors : List String)
  | loadErr (errors : List String)
  | notFoundErr (msg : String)
  | encryptionErr
  | typeErr
  | valueErr
  | cacheErr
deriving DecidableEq, Repr

def ConfigError.render : ConfigError → String
  | .readonlyErr m => m
  | .validationErr es => "Validation failed: " ++ toString es
  | .loadErr es => "Load failed: " ++ toString es
  | .notFoundErr m => m
  | .encryptionErr => "Encryption failed"
  | .typeErr => "TypeError"
  | .valueErr => "ValueError"
  | .cacheErr => "Cache failure"

/-! ## Capability plugins as injected into `BaseConfig`

The validator interface is modelled functionally: `validate(key, value)`
clears the per-call error buffer, so the pair (verdict, buffer after the
call) captures `validate` followed by `get_validation_errors` exactly (both
concrete validators, `SchemaValidator` and `TypeValidator`, behave this
way). -/

def Validator : Type := String → PyValue → Bool × List String

/-- `IConfigEncryption`: both directions may raise (`Fernet` raises on bad
ciphertext; the hash variant always raises on decrypt). -/
structure Encryption where
  encrypt : String → Except Unit String
  decrypt : String → Except Unit String

/-- `IConfigLoader.load`, for a given source identifier. -/
def Loader : Type := String → Except Unit (List (String × PyValue))

/-- `IConfigCache`. The `mem` variant is `MemoryCache`; `BaseConfig.get`
caches without a TTL, so `MemoryCache`'s TTL machinery is never engaged on
the modelled paths and is omitted. The `failing` variant models a cache
backend whose every operation raises (a cache outage with a plugin that
does not swallow its own errors). -/
inductive CacheModel where
  | mem (entries : List (String × PyValue))
  | failing

def CacheModel.get : CacheModel → String → Except Unit (Option PyValue)
  | .mem l, k => .ok (alookup l k)
  | .failing, _ => .error ()

def CacheModel.put : CacheModel → String → PyValue → Except Unit CacheModel
  | .mem l, k, v => .ok (.mem (aset l k v))
  | .failing, _, _ => .error ()

def CacheModel.invalidate : CacheModel → String → Except Unit CacheModel
  | .mem l, k => .ok (.mem (aerase l k))
  | .failing, _ => .error ()

def CacheModel.clear : CacheModel → Except Unit CacheModel
  | .mem _ => .ok (.mem [])
  | .failing => .error ()

/-! ## The configuration object (`BaseConfig`, src/config/base.py)

One structure holds the instance state (`_data`, `_metadata`, the injected
plugins, the lifecycle flags, `_validation_errors`) together with the
subtype contract (`get_config_name`, `get_default_values`,
`get_required_keys`), which abstract methods delegate to subclasses.
Observer callbacks are effect-free in the model (their exceptions are
caught and logged by `_notify_observers` anyway); `events` logs each
`_notify_observers` broadcast as `(key, old_value, new_value)`. -/

structure Config where
  data : List (String × PyValue) := []
  metadata : List (String × ConfigMetadata) := []
  validator : Option Validator := Option.none
  loader : Option Loader := Option.none
  encryption : Option Encryption := Option.none
  cache : Option CacheModel := Option.none
  loaded : Bool := false
  validated : Bool := false
  readonly : Bool := false
  validationErrors : List String := []
  events : List (String × PyValue × PyValue) := []
  name : String := "config"
  defaults : List (String × PyValue) := []
  requiredKeys : List String := []

/-- `_is_encrypted(key)`: the metadata flag decides decryption on read. -/
def Config.isEncryptedKey (c : Config) (key : String) : Bool :=
  match alookup c.metadata key with
  | some m => m.encrypted
  | Option.none => false

/-- `_should_encrypt(key)`: the sensitive-name heuristic — case-insensitive
substring test against the five patterns. -/
def shouldEncrypt (key : String) : Bool :=
  let lk := pyLower key
  ["password", "secret", "key", "token", "credential"].any
    (fun p => strContains lk p)

def Config.getMetadata (c : Config) (key : String) : Option ConfigMetadata :=
  alookup c.metadata key

def Config.hasKey (c : Config) (key : String) : Bool :=
  amem c.data key

/-- `_notify_observers`: one broadcast, every observer sees the same
arguments, observer exceptions are swallowed. -/
def Config.notify (c : Config) (key : String) (old nv : PyValue) : Config :=
  { c with events := c.events ++ [(key, old, nv)] }

/-- The cache-population step at the end of `get` (`if self._cache and
value is not None: self._cache.set(key, value)`); a raising cache `set` is
caught by `get`'s handler, which returns the default. -/
def Config.cacheStore (c : Config) (key : String) (v default : PyValue) :
    PyValue × Config :=
  match c.cache with
  | some cm =>
      if v.isNone then (v, c)
      else
        match cm.put key v with
        | .error _ => (default, c)
        | .ok cm' => (v, { c with cache := some cm' })
  | Option.none => (v, c)

/-- The data-path of `get`: nested lookup with default, decryption when the
metadata marks the key encrypted and an encryptor is attached (a decryption
failure falls back to the default), then cache population. -/
def Config.getFromData (c : Config) (key : String) (default : PyValue) :
    PyValue × Config :=
  let value := (getNested c.data key).getD default
  if c.isEncryptedKey key then
    match c.encryption with
    | some enc =>
        match enc.decrypt (pyStr value) with
        | .error _ => (default, c)
        | .ok s => c.cacheStore key (.str s) default
    | Option.none => c.cacheStore key value default
  else c.cacheStore key value default

/-- `BaseConfig.get(key, default)` (lines 197-221). The whole body is inside
`try/except`, so every failure path returns the default: the function is
total. A cached value that `is not None` is returned without touching
`data`. -/
def Config.get (c : Config) (key : String) (default : PyValue) :
    PyValue × Config :=
  match c.cache with
  | some cm =>
      match cm.get key with
      | .error _ => (default, c)
      | .ok (some v) =>
          if v.isNone then c.getFromData key default else (v, c)
      | .ok Option.none => c.getFromData key default
  | Option.none => c.getFromData key default

/-- The body of `set` after the readonly and validator gates: capture the
old value via `get`, encrypt when the name heuristic fires and an encryptor
is attached, write the nested value, replace the metadata record, invalidate
the cache, notify observers. -/
def Config.setBody (c : Config) (key : String) (value : PyValue)
    (md : Option ConfigMetadata) (now : Nat) : Except ConfigError Unit × Config :=
  let pair := c.get key .none
  let oldValue := pair.1
  let c1 := pair.2
  let evalue : Except ConfigError PyValue :=
    if shouldEncrypt key then
      match c1.encryption with
      | some enc =>
          match enc.encrypt (pyStr value) with
          | .ok s => .ok (.str s)
          | .error _ => .error .encryptionErr
      | Option.none => .ok value
    else .ok value
  match evalue with
  | .error e => (.error e, c1)
  | .ok v' =>
      match setNested c1.data key v' with
      | .error _ => (.error .typeErr, c1)
      | .ok data' =>
          let meta := md.getD (defaultMeta .memory .medium now)
          let c2 := { c1 with data := data', metadata := aset c1.metadata key meta }
          match c2.cache with
          | some cm =>
              match cm.invalidate key with
              | .error _ => (.error .cacheErr, c2)
              | .ok cm' =>
                  (.ok (), Config.notify { c2 with cache := some cm' } key oldValue v')
          | Option.none => (.ok (), Config.notify c2 key oldValue v')

/-- `BaseConfig.set(key, value, metadata)` (lines 223-265). The readonly
check precedes the `try`; inside it, a validator rejection raises
`ConfigValidationError` carrying the validator's error list, and any
exception is logged and re-raised. -/
def Config.set (c : Config) (key : String) (value : PyValue)
    (md : Option ConfigMetadata) (now : Nat) : Except ConfigError Unit × Config :=
  if c.readonly then
    (.error (.readonlyErr ("Configuration is readonly, cannot set " ++ key)), c)
  else
    match c.validator with
    | some val =>
        let r := val key value
        if r.1 then c.setBody key value md now
        else (.error (.validationErr r.2), c)
    | Option.none => c.setBody key value md now

/-- One iteration of the `load_defaults` loop: write data and a
`{memory, low}` metadata record only when the key is absent from `data`. -/
def loadDefaultsStep (now : Nat)
    (st : List (String × PyValue) × List (String × ConfigMetadata))
    (kv : String × PyValue) :
    List (String × PyValue) × List (String × ConfigMetadata) :=
  if amem st.1 kv.1 then st
  else (aset st.1 kv.1 kv.2, aset st.2 kv.1 (defaultMeta .memory .low now))

/-- `BaseConfig.load_defaults()` (lines 267-285). The body cannot raise
(plain dict writes), so the `except` branch that would wrap into
`ConfigLoadError` is dead and the result is always `ok`. -/
def Config.loadDefaults (c : Config) (now : Nat) :
    Except ConfigError Unit × Config :=
  let st := c.defaults.foldl (loadDefaultsStep now) (c.data, c.metadata)
  (.ok (), { c with data := st.1, metadata := st.2, loaded := true })

/-- The second phase of `load`: for each default key still missing from
`data`, a full `self.set(key, value, meta(memory, low))` call; the first
raising `set` aborts the loop (earlier writes persist). -/
def loadSetGo (now : Nat) : List (String × PyValue) → Config →
    Except ConfigError Unit × Config
  | [], c => (.ok (), c)
  | (k, v) :: rest, c =>
      if amem c.data k then loadSetGo now rest c
      else
        match c.set k v (some (defaultMeta .memory .low now)) now with
        | (.ok _, c') => loadSetGo now rest c'
        | (.error e, c') => (.error e, c')

/-- `BaseConfig.load(source)` (lines 287-309): optional loader fetch merged
into `data`, then defaults applied via `set`; any failure is wrapped into
`ConfigLoadError`. -/
def Config.load (c : Config) (source : Option String) (now : Nat) :
    Except ConfigError Unit × Config :=
  let step1 : Except ConfigError Config :=
    match c.loader, source with
    | some ld, some src =>
        match ld src with
        | .ok d => .ok { c with data := mergeDict c.data d }
        | .error _ => .error (.loadErr ["loader raised"])
    | _, _ => .ok c
  match step1 with
  | .error e => (.error (.loadErr ["Failed to load configuration: " ++ e.render]), c)
  | .ok c1 =>
      match loadSetGo now c.defaults c1 with
      | (.ok _, c2) => (.ok (), { c2 with loaded := true })
      | (.error e, c2) =>
          (.error (.loadErr ["Failed to load configuration: " ++ e.render]), c2)

/-- The validator sweep of `validate()`: every `(key, value)` in `data`, in
order, contributing `Key k: e` lines for each error of a rejected key. -/
def validatorErrors (val : Validator) : List (String × PyValue) → List String
  | [] => []
  | (k, v) :: rest =>
      let r := val k v
      (if r.1 then [] else r.2.map (fun e => "Key " ++ k ++ ": " ++ e)) ++
        validatorErrors val rest

/-- `BaseConfig.validate()` (lines 311-343): one message naming all missing
required keys, then the per-key validator errors, all accumulated before
returning; `validated` is set to the verdict, which is true exactly when the
aggregated list is empty. -/
def Config.validate (c : Config) : Bool × Config :=
  let missing := c.requiredKeys.filter (fun k => ¬ amem c.data k)
  let errs :=
    (if missing.isEmpty then [] else ["Missing required keys: " ++ toString missing]) ++
    (match c.validator with
     | some val => validatorErrors val c.data
     | Option.none => [])
  if errs.isEmpty then
    (true, { c with validated := true, validationErrors := errs })
  else
    (false, { c with validated := false, validationErrors := errs })

def Config.reloadBody (c : Config) (now : Nat) : Except ConfigError Unit × Config :=
  match c.load Option.none now with
  | (.ok _, c1) =>
      let p := c1.validate
      (.ok (), p.2)
  | (.error e, c1) => (.error e, c1)

/-- `BaseConfig.reload()` (lines 350-357): reset the lifecycle flags, clear
the cache, re-run `load()` (with no source) then `validate()`. -/
def Config.reload (c : Config) (now : Nat) : Except ConfigError Unit × Config :=
  let c0 := { c with loaded := false, validated := false }
  match c0.cache with
  | some cm =>
      match cm.clear with
      | .error _ => (.error .cacheErr, c0)
      | .ok cm' => Config.reloadBody { c0 with cache := some cm' } now
  | Option.none => Config.reloadBody c0 now

/-! ## Backup and restore (lines 359-390)

The snapshot serializes each metadata record: enum members as their
primitive `value`, timestamps via `isoformat()`. `datetime.isoformat` /
`fromisoformat` is a bijection on datetimes, modelled as the identity on
the abstract instant. `dict.copy()` is value semantics in the model (the
Python copy is shallow; aliasing through nested dicts is outside the
model). -/

structure MetaSnapshot where
  source : String
  priority : Nat
  createdAt : Nat
  updatedAt : Option Nat
  version : String
  encrypted : Bool
  cached : Bool
deriving DecidableEq, Repr

def metaToSnapshot (m : ConfigMetadata) : MetaSnapshot :=
  { source := m.source.value, priority := m.priority.value,
    createdAt := m.createdAt, updatedAt := m.updatedAt,
    version := m.version, encrypted := m.encrypted, cached := m.cached }

/-- Rebuilding one `ConfigMetadata` from its serialized form; the enum
constructors raise `ValueError` on an unknown payload. -/
def metaOfSnapshot (s : MetaSnapshot) : Except ConfigError ConfigMetadata :=
  match ConfigSource.ofValue s.source, ConfigPriority.ofValue s.priority with
  | some src, some pr =>
      .ok { source := src, priority := pr, createdAt := s.createdAt,
            updatedAt := s.updatedAt, version := s.version,
            encrypted := s.encrypted, cached := s.cached }
  | _, _ => .error .valueErr

structure Snapshot where
  data : List (String × PyValue)
  metadata : List (String × MetaSnapshot)

def Config.backup (c : Config) : Snapshot :=
  { data := c.data,
    metadata := c.metadata.map (fun kv => (kv.1, metaToSnapshot kv.2)) }

/-- The metadata-rebuild loop of `restore`: starts from `{}` and inserts
entry by entry; an entry that fails to parse aborts the loop, leaving the
partial rebuild in place (the error propagates). -/
def rebuildMeta : List (String × MetaSnapshot) →
    List (String × ConfigMetadata) →
    Except ConfigError Unit × List (String × ConfigMetadata)
  | [], acc => (.ok (), acc)
  | (k, s) :: rest, acc =>
      match metaOfSnapshot s with
      | .ok m => rebuildMeta rest (aset acc k m)
      | .error e => (.error e, acc)

/-- `BaseConfig.restore(backup)` (lines 374-390): `data` and `metadata` are
fully replaced from the snapshot, never merged. -/
def Config.restore (c : Config) (b : Snapshot) : Except ConfigError Unit × Config :=
  let c1 := { c with data := b.data }
  let p := rebuildMeta b.metadata []
  match p.1 with
  | .ok _ => (.ok (), { c1 with metadata := p.2 })
  | .error e => (.error e, { c1 with metadata := p.2 })

/-- `BaseConfig.remove_key(key)` (lines 425-440): readonly gate, then —
only when the key is literally a top-level key of `data` — delete data and
metadata, invalidate the cache, notify observers with `None` as the new
value. `remove_key` has no exception handler, so a raising cache
`invalidate` propagates. -/
def Config.removeKey (c : Config) (key : String) : Except ConfigError Unit × Config :=
  if c.readonly then (.error (.readonlyErr "Configuration is readonly"), c)
  else
    match alookup c.data key with
    | some oldValue =>
        let c1 := { c with data := aerase c.data key,
                           metadata := aerase c.metadata key }
        match c1.cache with
        | some cm =>
            match cm.invalidate key with
            | .error _ => (.error .cacheErr, c1)
            | .ok cm' =>
                (.ok (), Config.notify { c1 with cache := some cm' } key oldValue .none)
        | Option.none => (.ok (), Config.notify c1 key oldValue .none)
    | Option.none => (.ok (), c)

/-! ## SchemaValidator (src/config/implementations.py lines 35-99) -/

/-- One schema entry: `{'type': ..., 'required': ..., 'min': ..., 'max': ...,
'pattern': ..., 'choices': ...}`. Regex matching (`re.match`) is modelled as
an abstract string predicate. -/
structure SchemaEntry where
  type : Option PyType := Option.none
  required : Bool := false
  min : Option ℚ := Option.none
  max : Option ℚ := Option.none
  pattern : Option (String → Bool) := Option.none
  choices : Option (List PyValue) := Option.none

/-- `value < bound` on a Python number (`-inf` is below everything, `nan`
compares false). -/
def NumRep.ltQ : NumRep → ℚ → Bool
  | .fin a, q => a < q
  | .inf neg, _ => neg
  | .nan, _ => false

def NumRep.gtQ : NumRep → ℚ → Bool
  | .fin a, q => q < a
  | .inf neg, _ => !neg
  | .nan, _ => false

/-- The per-key body of `SchemaValidator.validate`: the checks run in the
source order (required, None-pass, type, numeric min/max, string pattern,
choices) and the first failing check returns with that single error — the
error buffer is cleared at the start of every call, so the result pair is
(verdict, buffer). -/
def schemaValidateEntry (key : String) (e : SchemaEntry) (value : PyValue) :
    Bool × List String := Id.run do
  if e.required && value.isNone then
    return (false, [key ++ " is required"])
  if value.isNone then
    return (true, [])
  if let some t := e.type then
    if !(isinst value t) then
      return (false, [key ++ " must be of type " ++ t.name])
  if let some r := numRep value then
    if let some mn := e.min then
      if r.ltQ mn then
        return (false, [key ++ " must be >= " ++ toString mn])
    if let some mx := e.max then
      if r.gtQ mx then
        return (false, [key ++ " must be <= " ++ toString mx])
  if let PyValue.str s := value then
    if let some pat := e.pattern then
      if !(pat s) then
        return (false, [key ++ " does not match pattern"])
  if let some cs := e.choices then
    if !cs.isEmpty && !(pyMem value cs) then
      return (false, [key ++ " must be one of " ++ toString (cs.map pyRepr)])
  return (true, [])

/-- `SchemaValidator` as an injected validator: unknown keys always pass. -/
def schemaValidate (schema : List (String × SchemaEntry)) : Validator :=
  fun key value =>
    match alookup schema key with
    | some e => schemaValidateEntry key e value
    | Option.none => (true, [])

/-! ## EnvironmentLoader value coercion
(src/config/implementations.py lines 159-212)

`_parse_env_value` tries, in order: boolean literal, `int(value)`,
`float(value)`, `json.loads(value)`, raw string. The Python number
grammars are modelled over ASCII (`int`/`float` also accept non-ASCII
digits and unicode whitespace in Python; environment variable values are
byte strings, so the ASCII model is exact here). -/

def isPyWs (c : Char) : Bool :=
  c = ' ' || c = '\t' || c = '\n' || c = '\r' || c = '\x0b' || c = '\x0c'

def stripWs (cs : List Char) : List Char :=
  ((cs.dropWhile isPyWs).reverse.dropWhile isPyWs).reverse

/-- A run of decimal digits in Python's `int`/`float` grammar: single
underscores are permitted between digits; an underscore not followed by a
digit stops the run (which then makes the whole parse fail on the
leftover). -/
def digitRunGo : List Char → List Char × List Char
  | '_' :: c :: rest =>
      if c.isDigit then
        let p := digitRunGo rest
        (c :: p.1, p.2)
      else ([], '_' :: c :: rest)
  | c :: rest =>
      if c.isDigit then
        let p := digitRunGo rest
        (c :: p.1, p.2)
      else ([], c :: rest)
  | [] => ([], [])

/-- At least one digit, then `digitRunGo`. -/
def digitRun : List Char → Option (List Char × List Char)
  | c :: rest =>
      if c.isDigit then some (digitRunGo (c :: rest)) else Option.none
  | [] => Option.none

def natOfDigits (ds : List Char) : Nat :=
  ds.foldl (fun acc c => acc * 10 + (c.toNat - '0'.toNat)) 0

/-- Model of Python `int(value)` on a string: optional surrounding
whitespace, optional sign, underscore-grouped digits, nothing left over. -/
def tryInt (s : String) : Option ℤ := Id.run do
  let cs := stripWs s.toList
  let (neg, cs') :=
    match cs with
    | '+' :: r => (false, r)
    | '-' :: r => (true, r)
    | r => (false, r)
  match digitRun cs' with
  | some (ds, []) =>
      let n : ℤ := natOfDigits ds
      return some (if neg then -n else n)
  | _ => return Option.none

/-- The part of `float(value)` after the optional sign: `inf`, `infinity`,
`nan` (case-insensitive) or a decimal with optional fraction and exponent.
The value is modelled exactly as a rational (Python rounds to the nearest
IEEE double; no property below depends on rounding). -/
def tryFloatBody (neg : Bool) (cs : List Char) : Option PyFloat := Id.run do
  let lowered := String.mk (cs.map Char.toLower)
  if lowered = "inf" || lowered = "infinity" then
    return some (.inf neg)
  if lowered = "nan" then
    return some .nan
  -- mantissa
  let (intDs, fracDs, rest) ←
    match digitRun cs with
    | some (ds, '.' :: r2) =>
        match digitRun r2 with
        | some (fs, r3) => pure (ds, fs, r3)
        | Option.none => pure (ds, ([] : List Char), r2)
    | some (ds, r2) => pure (ds, ([] : List Char), r2)
    | Option.none =>
        match cs with
        | '.' :: r2 =>
            match digitRun r2 with
            | some (fs, r3) => pure (([] : List Char), fs, r3)
            | Option.none => return Option.none
        | _ => return Option.none
  -- a bare "." or empty mantissa is invalid
  if intDs.isEmpty && fracDs.isEmpty then
    return Option.none
  -- there must be a fraction or nothing between the digits and the exponent
  let (expSgn, expDs, rest') ←
    match rest with
    | 'e' :: r4 | 'E' :: r4 =>
        let (es, r5) :=
          match r4 with
          | '+' :: r => (false, r)
          | '-' :: r => (true, r)
          | r => (false, r)
        match digitRun r5 with
        | some (eds, r6) => pure (es, eds, r6)
        | Option.none => return Option.none
    | _ => pure (false, ([] : List Char), rest)
  if !rest'.isEmpty then
    return Option.none
  let mantissa : ℚ :=
    (natOfDigits (intDs ++ fracDs) : ℚ) / (10 : ℚ) ^ fracDs.length
  let expo : ℤ :=
    if expSgn then -(natOfDigits expDs : ℤ) else (natOfDigits expDs : ℤ)
  let q := mantissa * (10 : ℚ) ^ expo
  return some (.finite (if neg then -q else q))

/-- Model of Python `float(value)` on a string. -/
def tryFloat (s : String) : Option PyFloat :=
  let cs := stripWs s.toList
  match cs with
  | '+' :: r => tryFloatBody false r
  | '-' :: r => tryFloatBody true r
  | r =>
      match r with
      | [] => Option.none
      | _ => tryFloatBody false r

/-! ### `json.loads` (the fourth coercion step)

A fuel-indexed recursive-descent parser for the JSON grammar as Python's
strict decoder accepts it: `null`/`true`/`false`, numbers without leading
zeros or leading `+` (integer literals decode to `int`, others to `float`),
double-quoted strings with the standard escapes and `\uXXXX` (surrogate
pairs combined; a lone surrogate is not representable in a Lean `Char` and
maps to NUL), arrays, objects (later duplicate keys overwrite), plus the
Python extensions `NaN`, `Infinity`, `-Infinity`. The fuel is sized so it
never runs out on a terminating input. -/

def jsonWsChar (c : Char) : Bool :=
  c = ' ' || c = '\t' || c = '\n' || c = '\r'

def jsonWs (cs : List Char) : List Char :=
  cs.dropWhile jsonWsChar

def jsonDigits : List Char → List Char × List Char
  | c :: rest =>
      if c.isDigit then
        let p := jsonDigits rest
        (c :: p.1, p.2)
      else ([], c :: rest)
  | [] => ([], [])

/-- The value of one hexadecimal digit (either case), as its position in
the digit alphabet. -/
def hexVal (c : Char) : Option Nat :=
  "0123456789abcdef".toList.findIdx? fun d => d = c.toLower

def hex4 (cs : List Char) : Option (Nat × List Char) :=
  if cs.length < 4 then Option.none
  else
    ((cs.take 4).foldlM (fun acc c => (hexVal c).map fun v => acc * 16 + v) 0).map
      fun n => (n, cs.drop 4)

/-- Strip a literal token from the front of the input. -/
def stripLit (w : String) (cs : List Char) : Option (List Char) :=
  if w.toList.isPrefixOf cs then some (cs.drop w.toList.length) else Option.none

/-- The literal JSON values Python's decoder accepts, `NaN`/`Infinity`
extensions included, in the order its scanner tries them relative to
numbers. -/
def jsonConsts : List (String × PyValue) :=
  [("true", .bool true), ("false", .bool false), ("null", .none),
   ("NaN", .float .nan), ("Infinity", .float (.inf false)),
   ("-Infinity", .float (.inf true))]

def jsonConst : List (String × PyValue) → List Char →
    Option (PyValue × List Char)
  | [], _ => Option.none
  | (w, v) :: rest, cs =>
      match stripLit w cs with
      | some r => some (v, r)
      | Option.none => jsonConst rest cs

/-- JSON string body after the opening quote, fueled. -/
def jsonStringGo : Nat → List Char → List Char → Option (String × List Char)
  | 0, _, _ => Option.none
  | _ + 1, acc, '"' :: rest => some (String.mk acc.reverse, rest)
  | fuel + 1, acc, '\\' :: e :: rest =>
      match e with
      | '"' => jsonStringGo fuel ('"' :: acc) rest
      | '\\' => jsonStringGo fuel ('\\' :: acc) rest
      | '/' => jsonStringGo fuel ('/' :: acc) rest
      | 'b' => jsonStringGo fuel ('\x08' :: acc) rest
      | 'f' => jsonStringGo fuel ('\x0c' :: acc) rest
      | 'n' => jsonStringGo fuel ('\n' :: acc) rest
      | 'r' => jsonStringGo fuel ('\r' :: acc) rest
      | 't' => jsonStringGo fuel ('\t' :: acc) rest
      | 'u' =>
          match hex4 rest with
          | some (hi, rest2) =>
              if 0xD800 ≤ hi && hi ≤ 0xDBFF then
                match rest2 with
                | '\\' :: 'u' :: rest3 =>
                    match hex4 rest3 with
                    | some (lo, rest4) =>
                        if 0xDC00 ≤ lo && lo ≤ 0xDFFF then
                          let cp := 0x10000 + (hi - 0xD800) * 0x400 + (lo - 0xDC00)
                          jsonStringGo fuel (Char.ofNat cp :: acc) rest4
                        else
                          jsonStringGo fuel (Char.ofNat lo :: Char.ofNat hi :: acc) rest4
                    | Option.none => Option.none
                | _ => jsonStringGo fuel (Char.ofNat hi :: acc) rest2
              else jsonStringGo fuel (Char.ofNat hi :: acc) rest2
          | Option.none => Option.none
      | _ => Option.none
  | fuel + 1, acc, c :: rest =>
      if c.toNat < 0x20 then Option.none
      else jsonStringGo fuel (c :: acc) rest
  | _, _, [] => Option.none

/-- JSON number: `-? (0 | [1-9][0-9]*) (. [0-9]+)? ([eE][+-]?[0-9]+)?`.
Integer form gives `int`, any fraction or exponent gives `float`. -/
def jsonNumber (cs : List Char) : Option (PyValue × List Char) := Id.run do
  let (neg, cs1) :=
    match cs with
    | '-' :: r => (true, r)
    | r => (false, r)
  let (intDs, cs2) ←
    match cs1 with
    | '0' :: r => pure (['0'], r)
    | c :: r =>
        if c.isDigit then
          let p := jsonDigits r
          pure (c :: p.1, p.2)
        else return Option.none
    | [] => return Option.none
  let (fracDs, cs3) ←
    match cs2 with
    | '.' :: r =>
        let p := jsonDigits r
        if p.1.isEmpty then return Option.none else pure (p.1, p.2)
    | r => pure (([] : List Char), r)
  let (hasExp, expSgn, expDs, cs4) ←
    match cs3 with
    | 'e' :: r | 'E' :: r =>
        let (sg, r2) :=
          match r with
          | '+' :: rr => (false, rr)
          | '-' :: rr => (true, rr)
          | rr => (false, rr)
        let p := jsonDigits r2
        if p.1.isEmpty then return Option.none
        else pure (true, sg, p.1, p.2)
    | r => pure (false, false, ([] : List Char), r)
  if fracDs.isEmpty && !hasExp then
    let n : ℤ := natOfDigits intDs
    return some (.int (if neg then -n else n), cs4)
  else
    let mantissa : ℚ :=
      (natOfDigits (intDs ++ fracDs) : ℚ) / (10 : ℚ) ^ fracDs.length
    let expo : ℤ :=
      if expSgn then -(natOfDigits expDs : ℤ) else (natOfDigits expDs : ℤ)
    let q := mantissa * (10 : ℚ) ^ expo
    return some (.float (.finite (if neg then -q else q)), cs4)

mutual

def jsonVal : Nat → List Char → Option (PyValue × List Char)
  | 0, _ => Option.none
  | fuel + 1, cs =>
      match jsonWs cs with
      | '"' :: rest => do
          let (s, rest') ← jsonStringGo (rest.length + 1) [] rest
          some (.str s, rest')
      | '\x7b' :: rest =>
          (match jsonWs rest with
           | '\x7d' :: rest' => some (.dict [], rest')
           | _ => do
               let (d, rest') ← jsonObjItems fuel [] rest
               some (.dict d, rest'))
      | '[' :: rest =>
          (match jsonWs rest with
           | ']' :: rest' => some (.list [], rest')
           | _ => do
               let (xs, rest') ← jsonArrItems fuel rest
               some (.list xs, rest'))
      | rest =>
          match jsonConst jsonConsts rest with
          | some p => some p
          | Option.none => jsonNumber rest

/-- Array elements after `[` (non-empty case): element (`,` element)* `]`. -/
def jsonArrItems : Nat → List Char → Option (List PyValue × List Char)
  | 0, _ => Option.none
  | fuel + 1, cs => do
      let (v, rest) ← jsonVal fuel cs
      match jsonWs rest with
      | ',' :: rest' => do
          let (xs, rest'') ← jsonArrItems fuel rest'
          some (v :: xs, rest'')
      | ']' :: rest' => some ([v], rest')
      | _ => Option.none

/-- Object members after `{` (non-empty case); later duplicate keys
overwrite, as `dict` insertion does. -/
def jsonObjItems : Nat → List (String × PyValue) → List Char →
    Option (List (String × PyValue) × List Char)
  | 0, _, _ => Option.none
  | fuel + 1, acc, cs =>
      match jsonWs cs with
      | '"' :: rest => do
          let (k, rest1) ← jsonStringGo (rest.length + 1) [] rest
          match jsonWs rest1 with
          | ':' :: rest2 => do
              let (v, rest3) ← jsonVal fuel rest2
              let acc' := aset acc k v
              match jsonWs rest3 with
              | ',' :: rest4 => jsonObjItems fuel acc' rest4
              | '\x7d' :: rest4 => some (acc', rest4)
              | _ => Option.none
          | _ => Option.none
      | _ => Option.none

end

/-- Model of `json.loads(value)`: one JSON value with only whitespace
around it. -/
def jsonLoads (s : String) : Option PyValue :=
  match jsonVal (4 * (s.length + 1)) s.toList with
  | some (v, rest) => if (jsonWs rest).isEmpty then some v else Option.none
  | Option.none => Option.none

/-- `EnvironmentLoader._parse_env_value` (lines 183-208): the coercion
priority order. -/
def parseEnvValue (v : String) : PyValue :=
  if pyLower v = "true" then .bool true
  else if pyLower v = "false" then .bool false
  else
    match tryInt v with
    | some n => .int n
    | Option.none =>
        match tryFloat v with
        | some f => .float f
        | Option.none =>
            match jsonLoads v with
            | some jv => jv
            | Option.none => .str v

/-- `EnvironmentLoader.load` (lines 166-181): keep the variables whose name
starts with the prefix (all of them when the prefix is empty), strip the
prefix, lowercase the remainder, coerce the value. -/
def envLoad (pfx : String) (env : List (String × String)) :
    List (String × PyValue) :=
  env.foldl
    (fun acc kv =>
      if pfx ≠ "" && !(strStartsWith kv.1 pfx) then acc
      else
        let ck := if pfx ≠ "" then pyDrop kv.1 pfx.length else kv.1
        aset acc (pyLower ck) (parseEnvValue kv.2))
    []

/-! ## ConfigManager (src/config/manager.py) -/

inductive Strategy where
  | lazy | eager | onDemand
deriving DecidableEq, Repr

structure Manager where
  configs : List (String × Config) := []
  strategy : Strategy := .lazy

/-- `ConfigManager.get_config(name)` (lines 261-278): `ConfigException` for
an unregistered name; under the lazy strategy an unloaded config is loaded
and validated first (a load failure propagates; the `validate` verdict is
ignored). The in-place mutation of the stored object is modelled by
writing the updated config back into the registry, also when the load
fails. -/
def Manager.getConfig (m : Manager) (name : String) (now : Nat) :
    Except ConfigError Config × Manager :=
  match alookup m.configs name with
  | Option.none => (.error (.notFoundErr ("Config " ++ name ++ " not found")), m)
  | some c =>
      if m.strategy = .lazy && !c.loaded then
        match c.load Option.none now with
        | (.ok _, c1) =>
            let p := c1.validate
            (.ok p.2, { m with configs := aset m.configs name p.2 })
        | (.error e, c1) => (.error e, { m with configs := aset m.configs name c1 })
      else (.ok c, m)

/-- `ConfigManager.get_config_value` (lines 280-287): pass-through to the
named config's `get`; any lookup/lazy-load failure is logged and the
caller's default returned. -/
def Manager.getConfigValue (m : Manager) (name key : String) (default : PyValue)
    (now : Nat) : PyValue × Manager :=
  match m.getConfig name now with
  | (.ok c, m1) =>
      let p := c.get key default
      (p.1, { m1 with configs := aset m1.configs name p.2 })
  | (.error _, m1) => (default, m1)

/-- The `load_all` loop: load each not-yet-loaded config, collecting one
message per failure, in registry order. -/
def loadAllGo (now : Nat) : List (String × Config) →
    List (String × Config) × List String
  | [] => ([], [])
  | (name, c) :: rest =>
      let (c', errs) :=
        if c.loaded then (c, [])
        else
          match c.load Option.none now with
          | (.ok _, c1) => (c1, [])
          | (.error e, c1) =>
              (c1, ["Failed to load config " ++ name ++ ": " ++ e.render])
      let p := loadAllGo now rest
      ((name, c') :: p.1, errs ++ p.2)

/-- `ConfigManager.load_all` (lines 362-378): after the loop, raise one
`ConfigLoadError` carrying every collected message, or succeed. -/
def Manager.loadAll (m : Manager) (now : Nat) : Except ConfigError Unit × Manager :=
  let p := loadAllGo now m.configs
  let m' := { m with configs := p.1 }
  if p.2.isEmpty then (.ok (), m')
  else (.error (.loadErr p.2), m')

/-- The `validate_all` loop: one entry per config whose `validate` returns
false (`validate` itself never raises, so the `except` arm is dead). -/
def validateAllGo : List (String × Config) →
    List (String × Config) × List String
  | [] => ([], [])
  | (name, c) :: rest =>
      let p := c.validate
      let errs := if p.1 then [] else ["Validation failed for config " ++ name]
      let q := validateAllGo rest
      ((name, p.2) :: q.1, errs ++ q.2)

/-- `ConfigManager.validate_all` (lines 380-396): returns false when any
config failed; the aggregated per-config failure list (which the code
logs) is returned alongside the verdict. -/
def Manager.validateAll (m : Manager) : (Bool × List String) × Manager :=
  let p := validateAllGo m.configs
  ((p.2.isEmpty, p.2), { m with configs := p.1 })

/-- The `reload_all` loop: a failing `reload` is caught and logged, the
loop continues. -/
def reloadAllGo (now : Nat) : List (String × Config) →
    List (String × Config) × List String
  | [] => ([], [])
  | (name, c) :: rest =>
      let p := c.reload now
      let logs :=
        match p.1 with
        | .ok _ => []
        | .error e => ["Failed to reload config " ++ name ++ ": " ++ e.render]
      let q := reloadAllGo now rest
      ((name, p.2) :: q.1, logs ++ q.2)

/-- `ConfigManager.reload_all` (lines 398-409): iterates every config,
catches each failure individually and only logs it, then returns
normally — there is no aggregation and no raise. The second component
models the per-config error log lines. -/
def Manager.reloadAll (m : Manager) (now : Nat) : Manager × List String :=
  let p := reloadAllGo now m.configs
  ({ m with configs := p.1 }, p.2)

/-! ## Fixtures and auxiliary predicates used by the verification -/

/-- A reversible cipher in the shape of `FernetEncryption`: `decrypt`
inverts `encrypt` and raises on a string that is not a ciphertext. -/
def testEnc : Encryption :=
  { encrypt := fun s => .ok ("ENC:" ++ s),
    decrypt := fun s =>
      if strStartsWith s "ENC:" then .ok (pyDrop s 4) else .error () }

/-- A fresh config with an encryptor attached and no cache. -/
def cEnc0 : Config := { encryption := some testEnc }

/-- A fresh config: nothing injected, empty data. -/
def freshC : Config := {}

/-- A one-entry schema: `port` must be an `int`. -/
def portSchema : List (String × SchemaEntry) :=
  [("port", { type := some .tInt })]

/-- Data missing the two required keys `r1`, `r2` and holding one
schema-violating value (`port` bound to a string). -/
def cVal4 : Config :=
  { validator := some (schemaValidate portSchema),
    requiredKeys := ["r1", "r2"],
    data := [("port", .str "x")] }

/-- A config whose `reload`/`load` always fails: it is readonly, and `load`
applies missing defaults through `set`, which the readonly gate rejects. -/
def cBad3 : Config := { readonly := true, defaults := [("x", .int 1)] }

/-- A registry holding one healthy and one failing config. -/
def mgr3 : Manager := { configs := [("good", freshC), ("bad", cBad3)] }

/-- A readonly config with some data, for the readonly-rejection witness. -/
def cRO : Config := { readonly := true, data := [("x", .int 1)] }

/-- The per-config failure messages `load_all` collects: each entry
contributes independently of every other entry (no short-circuit). -/
def loadFailureMsgs (now : Nat) : List (String × Config) → List String
  | [] => []
  | (name, c) :: rest =>
      (if c.loaded then []
       else
         match (c.load Option.none now).1 with
         | .ok _ => []
         | .error e => ["Failed to load config " ++ name ++ ": " ++ e.render]) ++
      loadFailureMsgs now rest

/-- The per-config failure messages `validate_all` collects. -/
def validateFailureMsgs : List (String × Config) → List String
  | [] => []
  | (name, c) :: rest =>
      (if (c.validate).1 then [] else ["Validation failed for config " ++ name]) ++
      validateFailureMsgs rest

/-- The per-config failure messages `reload_all` logs. -/
def reloadFailureMsgs (now : Nat) : List (String × Config) → List String
  | [] => []
  | (name, c) :: rest =>
      (match (c.reload now).1 with
       | .ok _ => []
       | .error e => ["Failed to reload config " ++ name ++ ": " ++ e.render]) ++
      reloadFailureMsgs now rest

/-- The attached validator (if any) accepts `(key, value)`. -/
def validatorAccepts (c : Config) (key : String) (v : PyValue) : Prop :=
  ∀ val, c.validator = some val → (val key v).1 = true

/-- The well-formed cache states reachable with a real cache backend: no
cache, or a memory cache with unique keys. (The `failing` variant models
an outage and is excluded here.) -/
def CacheWF : Option CacheModel → Prop
  | Option.none => True
  | some (.mem l) => (l.map Prod.fst).Nodup
  | some .failing => False

/-- A config whose metadata marks `sk` encrypted while `data` holds a
non-ciphertext, so a read hits a decryption failure. -/
def cDec2 : Config :=
  { data := [("sk", .str "plain")],
    metadata := [("sk", { source := .memory, priority := .medium,
                          createdAt := 0, encrypted := true })],
    encryption := some testEnc }

/-- A config whose cache backend raises on every operation. -/
def cFailCache : Config :=
  { cache := some .failing, data := [("k", .int 1)] }

/-- An empty registry. -/
def freshM : Manager := {}

/-- A config with one key already set and overlapping defaults, for the
`load_defaults` idempotence witness. -/
def cIdem6 : Config :=
  { data := [("x", .int 1)],
    metadata := [("x", { source := .memory, priority := .medium, createdAt := 7 })],
    defaults := [("x", .int 9), ("y", .int 2)] }

/-- A source config with data and metadata, for the backup/restore witness. -/
def cBk9 : Config :=
  { data := [("a", .int 1), ("b", .dict [("c", .str "s")])],
    metadata :=
      [("a", { source := .file, priority := .high, createdAt := 3,
               updatedAt := some 5, version := "2.0.0", encrypted := true,
               cached := true }),
       ("b", { source := .environment, priority := .low, createdAt := 4 })] }

/-- A freshly mutated unrelated target config, overwritten by `restore`. -/
def tBk9 : Config :=
  { data := [("z", .bool true)],
    metadata := [("z", { source := .memory, priority := .critical, createdAt := 9 })] }

/-! ## Supporting lemmas -/

theorem alookup_eq_none {α : Type} (l : List (String × α)) (k : String) :
    alookup l k = Option.none ↔ k ∉ l.map Prod.fst := by
  induction l with
  | nil => simp [alookup]
  | cons hd tl ih =>
      obtain ⟨k', v⟩ := hd
      by_cases h : k' = k <;> simp [alookup, h, ih] <;> tauto

theorem alookup_aerase_self {α : Type} (l : List (String × α)) (k : String)
    (h : (l.map Prod.fst).Nodup) : alookup (aerase l k) k = Option.none := by
  induction l with
  | nil => simp [aerase, alookup]
  | cons hd tl ih =>
      obtain ⟨k', v⟩ := hd
      simp only [List.map_cons, List.nodup_cons] at h
      by_cases hk : k' = k
      · subst hk
        simpa [aerase, alookup_eq_none] using h.1
      · simp [aerase, hk, alookup, ih h.2]

theorem mem_keys_aset {α : Type} (l : List (String × α)) (k x : String) (v : α) :
    x ∈ (aset l k v).map Prod.fst ↔ x ∈ l.map Prod.fst ∨ x = k := by
  induction l with
  | nil => simp [aset]
  | cons hd tl ih =>
      obtain ⟨k', w⟩ := hd
      by_cases h : k' = k <;> simp [aset, h, ih] <;> tauto

theorem nodup_keys_aset {α : Type} (l : List (String × α)) (k : String) (v : α)
    (h : (l.map Prod.fst).Nodup) : ((aset l k v).map Prod.fst).Nodup := by
  induction l with
  | nil => simp [aset]
  | cons hd tl ih =>
      obtain ⟨k', w⟩ := hd
      simp only [List.map_cons, List.nodup_cons] at h
      by_cases hk : k' = k
      · subst hk
        simpa [aset] using And.intro h.1 h.2
      · simp only [aset, if_neg hk, List.map_cons, List.nodup_cons]
        refine ⟨?_, ih h.2⟩
        rw [mem_keys_aset]
        rintro (hx | hx)
        · exact h.1 hx
        · exact hk hx

/-- Writing then reading along the same dotted path: if `_set_nested_value`
succeeded, the `_get_nested_value` descent finds the just-written value. -/
theorem setGo_getGo :
    ∀ (segs : List String) (v : PyValue) (d d' : List (String × PyValue)),
      setGo segs v d = .ok d' → getGo segs (.dict d') = some v := by
  intro segs
  induction segs with
  | nil => intro v d d' h; simp [setGo] at h
  | cons k rest ih =>
      intro v d d' h
      cases rest with
      | nil =>
          simp only [setGo, Except.ok.injEq] at h
          subst h
          simp [getGo, alookup_aset_self]
      | cons k2 rest2 =>
          simp only [setGo] at h
          rcases hl : alookup d k with _ | w
          · simp only [hl] at h
            rcases hs : setGo (k2 :: rest2) v [] with e | sub
            · simp [hs] at h
            · simp only [hs, Except.ok.injEq] at h
              subst h
              have hstep : getGo (k :: k2 :: rest2) (.dict (aset d k (.dict sub)))
                  = getGo (k2 :: rest2) (.dict sub) := by
                simp [getGo, alookup_aset_self]
              rw [hstep]
              exact ih v [] sub hs
          · cases w with
            | dict sub =>
                simp only [hl] at h
                rcases hs : setGo (k2 :: rest2) v sub with e | sub'
                · simp [hs] at h
                · simp only [hs, Except.ok.injEq] at h
                  subst h
                  have hstep : getGo (k :: k2 :: rest2) (.dict (aset d k (.dict sub')))
                      = getGo (k2 :: rest2) (.dict sub') := by
                    simp [getGo, alookup_aset_self]
                  rw [hstep]
                  exact ih v sub sub' hs
            | none => simp [hl] at h
            | bool b => simp [hl] at h
            | int n => simp [hl] at h
            | float f => simp [hl] at h
            | str s => simp [hl] at h
            | list xs => simp [hl] at h

/-- `get` only touches the cache field: data, metadata, plugins, flags and
the event log are unchanged by a read. -/
theorem get_shape (c : Config) (k : String) (d : PyValue) :
    (c.get k d).2 = { c with cache := (c.get k d).2.cache } := by
  obtain ⟨dd, md, vl, ld, en, ca, lo, va, ro, ve, ev, nm, df, rk⟩ := c
  unfold Config.get Config.getFromData Config.cacheStore
  dsimp only
  repeat' split <;> try rfl

/-- A read keeps the cache well-formed. -/
theorem get_cacheWF (c : Config) (k : String) (d : PyValue)
    (h : CacheWF c.cache) : CacheWF (c.get k d).2.cache := by
  obtain ⟨dd, md, vl, ld, en, ca, lo, va, ro, ve, ev, nm, df, rk⟩ := c
  cases ca with
  | none =>
      have hz : (Config.get
          ⟨dd, md, vl, ld, en, Option.none, lo, va, ro, ve, ev, nm, df, rk⟩
          k d).2.cache = Option.none := by
        unfold Config.get Config.getFromData Config.cacheStore
        dsimp only
        repeat' split
        all_goals rfl
      rw [hz]
      trivial
  | some cm =>
      cases cm with
      | failing => simp [CacheWF] at h
      | mem l =>
          simp only [CacheWF] at h
          unfold Config.get Config.getFromData Config.cacheStore
          dsimp only [CacheModel.get, CacheModel.put]
          repeat' split
          all_goals
            first
              | (simp only [CacheWF]; exact h)
              | (simp only [CacheWF]; exact nodup_keys_aset l k _ h)
              | trivial

theorem amem_append {α : Type} (l1 l2 : List (String × α)) (k : String) :
    amem (l1 ++ l2) k = (amem l1 k || amem l2 k) := by
  induction l1 with
  | nil => simp [amem, alookup]
  | cons hd tl ih =>
      obtain ⟨k', v⟩ := hd
      by_cases h : k' = k <;> simp [amem, alookup, h] <;>
        simpa [amem] using ih

theorem amem_false_aset_append {α : Type} (acc : List (String × α)) (k : String)
    (v : α) (h : amem acc k = false) : aset acc k v = acc ++ [(k, v)] := by
  induction acc with
  | nil => rfl
  | cons hd tl ih =>
      obtain ⟨k', w⟩ := hd
      simp only [amem, alookup] at h
      by_cases hk : k' = k
      · simp [hk] at h
      · simp only [aset, if_neg hk, List.cons_append, List.cons.injEq, true_and]
        exact ih (by simpa [amem, hk] using h)

/-- Membership in `data` survives the `load_defaults` fold. -/
theorem amem_fold_defaults (now : Nat) (ds : List (String × PyValue))
    (st : List (String × PyValue) × List (String × ConfigMetadata)) (k : String)
    (h : amem st.1 k = true) :
    amem (ds.foldl (loadDefaultsStep now) st).1 k = true := by
  induction ds generalizing st with
  | nil => simpa
  | cons hd tl ih =>
      simp only [List.foldl_cons]
      apply ih
      unfold loadDefaultsStep
      split
      · exact h
      · exact amem_aset _ _ _ _ h

/-- After the `load_defaults` fold, every default key is in `data`. -/
theorem fold_defaults_mem_all (now : Nat) (ds : List (String × PyValue))
    (st : List (String × PyValue) × List (String × ConfigMetadata)) :
    ∀ kv ∈ ds, amem (ds.foldl (loadDefaultsStep now) st).1 kv.1 = true := by
  induction ds generalizing st with
  | nil => simp
  | cons hd tl ih =>
      intro kv hkv
      rcases List.mem_cons.mp hkv with rfl | hmem
      · simp only [List.foldl_cons]
        apply amem_fold_defaults
        unfold loadDefaultsStep
        split
        · assumption
        · exact amem_aset_self _ _ _
      · simp only [List.foldl_cons]
        exact ih _ kv hmem

/-- The `load_defaults` fold is the identity when every default key is
already present. -/
theorem fold_defaults_noop (now : Nat) (ds : List (String × PyValue))
    (st : List (String × PyValue) × List (String × ConfigMetadata))
    (h : ∀ kv ∈ ds, amem st.1 kv.1 = true) :
    ds.foldl (loadDefaultsStep now) st = st := by
  induction ds with
  | nil => rfl
  | cons hd tl ih =>
      simp only [List.foldl_cons]
      have h1 : loadDefaultsStep now st hd = st := by
        unfold loadDefaultsStep
        simp [h hd (List.mem_cons_self hd tl)]
      rw [h1]
      exact ih fun kv hkv => h kv (List.mem_cons_of_mem hd hkv)

/-- The `load_defaults` fold never rebinds a key already present in
`data` — neither its value nor its metadata. -/
theorem fold_defaults_preserves (now : Nat) (ds : List (String × PyValue))
    (st : List (String × PyValue) × List (String × ConfigMetadata)) (k : String)
    (h : amem st.1 k = true) :
    alookup (ds.foldl (loadDefaultsStep now) st).1 k = alookup st.1 k ∧
    alookup (ds.foldl (loadDefaultsStep now) st).2 k = alookup st.2 k := by
  induction ds generalizing st with
  | nil => exact ⟨rfl, rfl⟩
  | cons hd tl ih =>
      simp only [List.foldl_cons]
      by_cases hm : amem st.1 hd.1 = true
      · have h1 : loadDefaultsStep now st hd = st := by
          unfold loadDefaultsStep
          simp [hm]
        rw [h1]
        exact ih st h
      · have hne : k ≠ hd.1 := fun he => hm (he ▸ h)
        have h1 : loadDefaultsStep now st hd =
            (aset st.1 hd.1 hd.2, aset st.2 hd.1 (defaultMeta .memory .low now)) := by
          unfold loadDefaultsStep
          simp [hm]
        rw [h1]
        have h' : amem (aset st.1 hd.1 hd.2) k = true := amem_aset _ _ _ _ h
        obtain ⟨e1, e2⟩ := ih (aset st.1 hd.1 hd.2,
          aset st.2 hd.1 (defaultMeta .memory .low now)) h'
        exact ⟨by rw [e1]; exact alookup_aset_ne _ _ _ _ hne,
               by rw [e2]; exact alookup_aset_ne _ _ _ _ hne⟩

/-- Serializing one metadata record and parsing it back is the identity. -/
theorem metaOfSnapshot_metaToSnapshot (m : ConfigMetadata) :
    metaOfSnapshot (metaToSnapshot m) = .ok m := by
  obtain ⟨src, pr, ca, ua, ver, en, cd⟩ := m
  cases src <;> cases pr <;> rfl

/-- The `restore` rebuild loop over a serialized metadata dict with unique
keys reproduces it exactly (appended after the accumulator). -/
theorem rebuildMeta_roundtrip :
    ∀ (l : List (String × ConfigMetadata)) (acc : List (String × ConfigMetadata)),
      (l.map Prod.fst).Nodup →
      (∀ k ∈ l.map Prod.fst, amem acc k = false) →
      rebuildMeta (l.map (fun kv => (kv.1, metaToSnapshot kv.2))) acc =
        (.ok (), acc ++ l) := by
  intro l
  induction l with
  | nil =>
      intro acc _ _
      simp [rebuildMeta]
  | cons hd tl ih =>
      intro acc hnd hfresh
      obtain ⟨k, m⟩ := hd
      simp only [List.map_cons, rebuildMeta, metaOfSnapshot_metaToSnapshot]
      rw [amem_false_aset_append acc k m (hfresh k (by simp))]
      simp only [List.map_cons, List.nodup_cons] at hnd
      rw [ih (acc ++ [(k, m)]) hnd.2 ?_]
      · simp
      · intro k' hk'
        rw [amem_append]
        have h1 : amem acc k' = false := hfresh k' (by simp [hk'])
        have h2 : amem [(k, m)] k' = false := by
          have : k' ≠ k := fun he => hnd.1 (he ▸ hk')
          simp [amem, alookup, Ne.symm this]
        simp [h1, h2]

/-- The messages `load_all` collects are exactly the per-config failure
messages, each depending only on its own entry. -/
theorem loadAllGo_spec (now : Nat) :
    ∀ cfgs, (loadAllGo now cfgs).2 = loadFailureMsgs now cfgs := by
  intro cfgs
  induction cfgs with
  | nil => rfl
  | cons hd tl ih =>
      obtain ⟨name, c⟩ := hd
      simp only [loadAllGo, loadFailureMsgs]
      by_cases hl : c.loaded
      · simp [hl, ih]
      · rcases hr : c.load Option.none now with ⟨r, c'⟩
        cases r <;> simp [hl, hr, ih]

theorem validateAllGo_spec :
    ∀ cfgs, (validateAllGo cfgs).2 = validateFailureMsgs cfgs := by
  intro cfgs
  induction cfgs with
  | nil => rfl
  | cons hd tl ih =>
      obtain ⟨name, c⟩ := hd
      simp only [validateAllGo, validateFailureMsgs]
      by_cases hv : (c.validate).1 <;> simp [hv, ih]

theorem reloadAllGo_spec (now : Nat) :
    ∀ cfgs, (reloadAllGo now cfgs).2 = reloadFailureMsgs now cfgs := by
  intro cfgs
  induction cfgs with
  | nil => rfl
  | cons hd tl ih =>
      obtain ⟨name, c⟩ := hd
      simp only [reloadAllGo, reloadFailureMsgs]
      rcases hr : c.reload now with ⟨r, c'⟩
      cases r <;> simp [hr, ih]

/-! ## The claims -/

/-- C1: the spec claims that for a sensitive key with an encryptor attached
and no cache, `set(k, v)` then `get(k)` returns `v` while the raw stored
value differs. The code violates its own design: `set` encrypts the value
but the auto-created metadata record keeps the dataclass default
`encrypted=False`, so `get`'s decrypt branch (`_is_encrypted`) never fires
and the caller receives the ciphertext. At `set("password", "hunter2")` on
a fresh config with a reversible encryptor: the raw stored value is the
ciphertext (that half of the claim holds), the metadata flag is `False`,
and `get` returns the ciphertext — which the attached cipher would have
decrypted correctly had the flag been set. -/
theorem c1_encrypt_roundtrip_broken :
    shouldEncrypt "password" = true ∧
    ((cEnc0.set "password" (.str "hunter2") Option.none 0).2.get
        "password" .none).1 = .str "ENC:hunter2" ∧
    ¬ ((cEnc0.set "password" (.str "hunter2") Option.none 0).2.get
        "password" .none).1 = .str "hunter2" ∧
    alookup (cEnc0.set "password" (.str "hunter2") Option.none 0).2.data
        "password" = some (.str "ENC:hunter2") ∧
    ((cEnc0.set "password" (.str "hunter2") Option.none 0).2.getMetadata
        "password").map ConfigMetadata.encrypted = some false ∧
    testEnc.decrypt "ENC:hunter2" = .ok "hunter2" := by
  refine ⟨rfl, rfl, ?_, rfl, rfl, rfl⟩
  intro h
  rw [show ((cEnc0.set "password" (.str "hunter2") Option.none 0).2.get
      "password" .none).1 = .str "ENC:hunter2" from rfl] at h
  injection h with h'
  exact absurd h' (by decide)

/-- C2: `get` and `get_config_value` never raise — in the embedding both
are total functions — and every read-path failure falls back to the
caller's default: a missing or non-mapping path (with no stale encryption
mark on the key), a decryption failure, a cache backend that raises, an
unregistered config name, and a failing lazy load. -/
theorem c2_get_never_raises :
    (∀ (c : Config) (key : String) (d : PyValue),
        c.cache = Option.none → getNested c.data key = Option.none →
        alookup c.metadata key = Option.none →
        (c.get key d).1 = d) ∧
    (getNested [("a", .int 5)] "a.b" = Option.none) ∧
    (∀ (c : Config) (key : String) (d : PyValue) (enc : Encryption),
        c.cache = Option.none → c.encryption = some enc →
        c.isEncryptedKey key = true →
        enc.decrypt (pyStr ((getNested c.data key).getD d)) = .error () →
        (c.get key d).1 = d) ∧
    (∀ (c : Config) (key : String) (d : PyValue),
        c.cache = some .failing → (c.get key d).1 = d) ∧
    (∀ (m : Manager) (name key : String) (d : PyValue) (now : Nat),
        alookup m.configs name = Option.none →
        (m.getConfigValue name key d now).1 = d) ∧
    (∀ (m : Manager) (name key : String) (d : PyValue) (now : Nat)
        (e : ConfigError),
        (m.getConfig name now).1 = .error e →
        (m.getConfigValue name key d now).1 = d) := by
  refine ⟨?_, rfl, ?_, ?_, ?_, ?_⟩
  · intro c key d h1 h2 h3
    simp [Config.get, Config.getFromData, Config.isEncryptedKey,
      Config.cacheStore, h1, h2, h3]
  · intro c key d enc h1 h2 h3 h4
    simp [Config.get, Config.getFromData, Config.cacheStore, h1, h2, h3, h4]
  · intro c key d h
    simp [Config.get, CacheModel.get, h]
  · intro m name key d now h
    simp [Manager.getConfigValue, Manager.getConfig, h]
  · intro m name key d now e h
    simp only [Manager.getConfigValue]
    rcases hg : m.getConfig name now with ⟨r, m1⟩
    rw [hg] at h
    simp only at h
    rw [h]

theorem c2_witness :
    ((freshC.get "k" (.int 7)).1 = .int 7) ∧
    ((cDec2.get "sk" (.int 8)).1 = .int 8) ∧
    ((cFailCache.get "k" (.int 9)).1 = .int 9) ∧
    ((freshM.getConfigValue "db" "host" (.str "fb") 0).1 = .str "fb") ∧
    ((mgr3.getConfigValue "bad" "x" (.str "fb2") 0).1 = .str "fb2") :=
  ⟨c2_get_never_raises.1 freshC "k" (.int 7) rfl rfl rfl,
   c2_get_never_raises.2.2.1 cDec2 "sk" (.int 8) testEnc rfl rfl rfl rfl,
   c2_get_never_raises.2.2.2.1 cFailCache "k" (.int 9) rfl,
   c2_get_never_raises.2.2.2.2.1 freshM "db" "host" (.str "fb") 0 rfl,
   c2_get_never_raises.2.2.2.2.2 mgr3 "bad" "x" (.str "fb2") 0
     (.loadErr ["Failed to load configuration: Configuration is readonly, cannot set x"])
     rfl⟩

/-- C3 counterexample: the claim says `reload_all` raises an aggregate
error when any reload fails. In the code `reload_all` catches every
per-config failure, logs it and returns normally. Here `bad`'s own
`reload` fails with a `ConfigLoadError`, yet `reload_all` (a total
function in the embedding, mirroring the absence of any raise path)
completes and only produces the log line. -/
theorem c3_reload_all_only_logs :
    (cBad3.reload 0).1 =
      .error (.loadErr
        ["Failed to load configuration: Configuration is readonly, cannot set x"]) ∧
    (mgr3.reloadAll 0).2 =
      ["Failed to reload config bad: Load failed: [Failed to load configuration: Configuration is readonly, cannot set x]"] :=
  ⟨rfl, rfl⟩

/-- C3 amended: `load_all` collects one message per failing config —
each computed from that entry alone, so no failure stops the iteration —
and raises a single aggregate `ConfigLoadError` listing them all (or
succeeds when there are none). `validate_all` likewise aggregates all
per-config failures and returns false (reporting the list, which it
logs), without raising. `reload_all` catches each failure individually,
logs it, and never raises and never aggregates. -/
theorem c3_bulk_failure_collection :
    (∀ (m : Manager) (now : Nat),
        (m.loadAll now).1 =
          (if loadFailureMsgs now m.configs = [] then .ok ()
           else .error (.loadErr (loadFailureMsgs now m.configs)))) ∧
    (∀ m : Manager,
        (m.validateAll).1.1 = (validateFailureMsgs m.configs).isEmpty ∧
        (m.validateAll).1.2 = validateFailureMsgs m.configs) ∧
    (∀ (m : Manager) (now : Nat),
        (m.reloadAll now).2 = reloadFailureMsgs now m.configs) := by
  refine ⟨?_, ?_, ?_⟩
  · intro m now
    simp only [Manager.loadAll, loadAllGo_spec]
    rcases h : loadFailureMsgs now m.configs with _ | ⟨e, es⟩ <;>
      simp [List.isEmpty_iff, h]
  · intro m
    simp [Manager.validateAll, validateAllGo_spec]
  · intro m now
    simp [Manager.reloadAll, reloadAllGo_spec]

/-- C4: on a config missing the required keys `r1`, `r2` and holding the
schema-violating `port` value, a single `validate()` call reports all
three problems (the two missing keys in one aggregated message plus the
per-key schema error); in general `validate` returns true and sets
`validated` exactly when the accumulated error list is empty. -/
theorem c4_validate_reports_all :
    ((cVal4.validate).1 = false ∧
     (cVal4.validate).2.validated = false ∧
     (cVal4.validate).2.validationErrors =
       ["Missing required keys: [r1, r2]",
        "Key port: port must be of type int"]) ∧
    ∀ c : Config,
      ((c.validate).1 = true ↔ (c.validate).2.validationErrors = []) ∧
      (c.validate).2.validated = (c.validate).1 := by
  refine ⟨⟨rfl, rfl, rfl⟩, ?_⟩
  intro c
  simp only [Config.validate]
  split
  all_goals
    split
    next h =>
      exact ⟨⟨fun _ => List.isEmpty_iff.mp h, fun _ => rfl⟩, rfl⟩
    next h =>
      exact ⟨⟨fun hh => absurd hh (by simp),
              fun hh => absurd (List.isEmpty_iff.mpr hh) h⟩, rfl⟩

/-- C5: a readonly config rejects both `set` and `remove_key` with the
readonly `ConfigException`, before anything else runs, leaving the whole
state — in particular `data` and `metadata` — untouched. -/
theorem c5_readonly_rejects (c : Config) (key : String) (v : PyValue)
    (md : Option ConfigMetadata) (now : Nat) (h : c.readonly = true) :
    c.set key v md now =
      (.error (.readonlyErr ("Configuration is readonly, cannot set " ++ key)), c) ∧
    c.removeKey key = (.error (.readonlyErr "Configuration is readonly"), c) := by
  constructor
  · unfold Config.set
    rw [h]
    simp
  · unfold Config.removeKey
    rw [h]
    simp

theorem c5_witness :
    cRO.set "x" (.int 2) Option.none 0 =
      (.error (.readonlyErr "Configuration is readonly, cannot set x"), cRO) ∧
    cRO.removeKey "x" = (.error (.readonlyErr "Configuration is readonly"), cRO) :=
  c5_readonly_rejects cRO "x" (.int 2) Option.none 0 rfl

/-- C6: `load_defaults` is idempotent — a second call leaves `data` and
`metadata` exactly as after the first, whatever the two call instants —
and it never overwrites a key already present in `data`: such a key keeps
both its value and its metadata record. -/
theorem c6_load_defaults_idempotent (c : Config) (t1 t2 : Nat) :
    (((c.loadDefaults t1).2.loadDefaults t2).2.data = (c.loadDefaults t1).2.data ∧
     ((c.loadDefaults t1).2.loadDefaults t2).2.metadata =
       (c.loadDefaults t1).2.metadata) ∧
    ∀ k, amem c.data k = true →
      alookup (c.loadDefaults t1).2.data k = alookup c.data k ∧
      alookup (c.loadDefaults t1).2.metadata k = alookup c.metadata k := by
  have hall := fold_defaults_mem_all t1 c.defaults (c.data, c.metadata)
  have hnoop := fold_defaults_noop t2 c.defaults
    (c.defaults.foldl (loadDefaultsStep t1) (c.data, c.metadata)) hall
  refine ⟨⟨?_, ?_⟩, ?_⟩
  · show (c.defaults.foldl (loadDefaultsStep t2)
        (c.defaults.foldl (loadDefaultsStep t1) (c.data, c.metadata))).1 =
      (c.defaults.foldl (loadDefaultsStep t1) (c.data, c.metadata)).1
    rw [hnoop]
  · show (c.defaults.foldl (loadDefaultsStep t2)
        (c.defaults.foldl (loadDefaultsStep t1) (c.data, c.metadata))).2 =
      (c.defaults.foldl (loadDefaultsStep t1) (c.data, c.metadata)).2
    rw [hnoop]
  · intro k hk
    exact fold_defaults_preserves t1 c.defaults (c.data, c.metadata) k hk

theorem c6_witness :
    (((cIdem6.loadDefaults 0).2.loadDefaults 1).2.data =
       (cIdem6.loadDefaults 0).2.data ∧
     ((cIdem6.loadDefaults 0).2.loadDefaults 1).2.metadata =
       (cIdem6.loadDefaults 0).2.metadata) ∧
    (alookup (cIdem6.loadDefaults 0).2.data "x" = alookup cIdem6.data "x" ∧
     alookup (cIdem6.loadDefaults 0).2.metadata "x" = alookup cIdem6.metadata "x") :=
  ⟨(c6_load_defaults_idempotent cIdem6 0 1).1,
   (c6_load_defaults_idempotent cIdem6 0 1).2 "x" rfl⟩

/-- C7: the environment loader keeps exactly the variables matching the
prefix, strips the prefix and lowercases the remainder as the key, and
coerces each value in the priority order boolean → int → float → JSON →
raw string; with prefix `APP_` and `APP_PORT=9090` the result holds the
integer entry `port = 9090`. -/
theorem c7_env_loader_coercion :
    (envLoad "APP_" [("APP_PORT", "9090"), ("HOME", "/root")] =
      [("port", .int 9090)]) ∧
    (∀ (pfx k v : String),
        envLoad pfx [(k, v)] =
          if pfx = "" || strStartsWith k pfx then
            [(pyLower (if pfx = "" then k else pyDrop k pfx.length),
              parseEnvValue v)]
          else []) ∧
    (∀ v : String, pyLower v = "true" → parseEnvValue v = .bool true) ∧
    (∀ v : String, pyLower v = "false" → parseEnvValue v = .bool false) ∧
    (∀ (v : String) (n : ℤ), pyLower v ≠ "true" → pyLower v ≠ "false" →
        tryInt v = some n → parseEnvValue v = .int n) ∧
    (∀ (v : String) (f : PyFloat), pyLower v ≠ "true" → pyLower v ≠ "false" →
        tryInt v = Option.none → tryFloat v = some f →
        parseEnvValue v = .float f) ∧
    (∀ (v : String) (jv : PyValue), pyLower v ≠ "true" → pyLower v ≠ "false" →
        tryInt v = Option.none → tryFloat v = Option.none →
        jsonLoads v = some jv → parseEnvValue v = jv) ∧
    (∀ v : String, pyLower v ≠ "true" → pyLower v ≠ "false" →
        tryInt v = Option.none → tryFloat v = Option.none →
        jsonLoads v = Option.none → parseEnvValue v = .str v) ∧
    (∃ f, parseEnvValue "3.5" = .float f) ∧
    (parseEnvValue "[1, 2]" = .list [.int 1, .int 2]) ∧
    (parseEnvValue "TRUE" = .bool true) ∧
    (parseEnvValue "hello" = .str "hello") := by
  refine ⟨rfl, ?_, ?_, ?_, ?_, ?_, ?_, ?_, ⟨_, rfl⟩, rfl, rfl, rfl⟩
  · intro pfx k v
    by_cases h1 : pfx = ""
    · subst h1
      simp [envLoad, aset]
    · by_cases h2 : strStartsWith k pfx <;> simp [envLoad, aset, h1, h2]
  · intro v h
    simp [parseEnvValue, h]
  · intro v h
    simp [parseEnvValue, h]
  · intro v n h1 h2 h3
    simp [parseEnvValue, h1, h2, h3]
  · intro v f h1 h2 h3 h4
    simp [parseEnvValue, h1, h2, h3, h4]
  · intro v jv h1 h2 h3 h4 h5
    simp [parseEnvValue, h1, h2, h3, h4, h5]
  · intro v h1 h2 h3 h4 h5
    simp [parseEnvValue, h1, h2, h3, h4, h5]

theorem c7_witness :
    (envLoad "X_" [("X_A", "1")] = [("a", .int 1)]) ∧
    (parseEnvValue "False" = .bool false) ∧
    (parseEnvValue "12" = .int 12) ∧
    (∃ f, parseEnvValue "1e2" = .float f) ∧
    (parseEnvValue "null" = .none) ∧
    (parseEnvValue "wxyz" = .str "wxyz") :=
  ⟨by
    rw [c7_env_loader_coercion.2.1 "X_" "X_A" "1"]
    rfl,
   c7_env_loader_coercion.2.2.2.1 "False" rfl,
   c7_env_loader_coercion.2.2.2.2.1 "12" 12 (by decide) (by decide) rfl,
   ⟨_, c7_env_loader_coercion.2.2.2.2.2.1 "1e2" _ (by decide) (by decide)
     rfl rfl⟩,
   c7_env_loader_coercion.2.2.2.2.2.2.1 "null" .none (by decide) (by decide)
     rfl rfl rfl,
   c7_env_loader_coercion.2.2.2.2.2.2.2.1 "wxyz" (by decide) (by decide)
     rfl rfl rfl⟩

/-- C9: `restore` of a `backup` snapshot succeeds and reproduces exactly
the source's `data` and full per-key metadata (source, priority, encrypted
flag, version and timestamps survive the enum/ISO serialization round
trip), on any target config — whose previous `data`/`metadata` are fully
replaced, never merged. The metadata dict has unique keys, as every
Python dict does. -/
theorem c9_backup_restore_roundtrip (c t : Config)
    (h : (c.metadata.map Prod.fst).Nodup) :
    (t.restore c.backup).1 = .ok () ∧
    (t.restore c.backup).2.data = c.data ∧
    (t.restore c.backup).2.metadata = c.metadata := by
  have hr := rebuildMeta_roundtrip c.metadata [] h (fun k _ => rfl)
  simp [Config.restore, Config.backup, hr]

theorem c9_witness :
    (tBk9.restore cBk9.backup).1 = .ok () ∧
    (tBk9.restore cBk9.backup).2.data = cBk9.data ∧
    (tBk9.restore cBk9.backup).2.metadata = cBk9.metadata :=
  c9_backup_restore_roundtrip cBk9 tBk9 (by decide)

/-- C10: `has_key` and `remove_key` consult only literal top-level keys:
`has_key k` is by definition membership of `k` itself in `data`; and on a
fresh config, after `set("a.b", v)` the dotted read returns `v`, yet
`has_key("a.b")` is false and `remove_key("a.b")` succeeds while leaving
the entire state unchanged — nothing is removed and no observer
notification is broadcast (the event log is part of the unchanged
state). -/
theorem c10_top_level_keys_only :
    (∀ (c : Config) (k : String), c.hasKey k = amem c.data k) ∧
    ∀ v : PyValue,
      (((freshC.set "a.b" v Option.none 0).2.get "a.b" .none).1 = v) ∧
      ((freshC.set "a.b" v Option.none 0).2.hasKey "a.b" = false) ∧
      ((freshC.set "a.b" v Option.none 0).2.removeKey "a.b" =
        (.ok (), (freshC.set "a.b" v Option.none 0).2)) := by
  exact ⟨fun c k => rfl, fun v => ⟨rfl, rfl, rfl⟩⟩

/-- C8: for a key not matching the sensitive-name heuristic, on a
non-readonly config whose validator (if any) accepts the value, whose
cache is absent or a well-formed memory cache, and whose nested write
succeeds (every existing intermediate on the dotted path is a mapping;
missing ones are created by the write), `set(k, v)` with no caller
metadata succeeds and a following `get(k)` returns `v` unchanged — no
cipher round-trip is applied even when an encryptor is attached. -/
theorem c8_plain_set_get_roundtrip (c : Config) (k : String) (v : PyValue)
    (now : Nat) (d2 : List (String × PyValue))
    (hro : c.readonly = false)
    (hsen : shouldEncrypt k = false)
    (hval : validatorAccepts c k v)
    (hwf : CacheWF c.cache)
    (hset : setNested c.data k v = .ok d2) :
    (c.set k v Option.none now).1 = .ok () ∧
    ((c.set k v Option.none now).2.get k .none).1 = v := by
  have hbody : c.set k v Option.none now = c.setBody k v Option.none now := by
    simp only [Config.set, hro, Bool.false_eq_true, if_false]
    rcases hv : c.validator with _ | val
    · rfl
    · simp only [hval val hv, if_true]
  have hget : getGo (splitDot k) (.dict d2) = some v :=
    setGo_getGo (splitDot k) v c.data d2 hset
  have hmfin : alookup (aset c.metadata k (defaultMeta .memory .medium now)) k
      = some (defaultMeta .memory .medium now) := alookup_aset_self _ _ _
  have hdm : (defaultMeta .memory .medium now).encrypted = false := rfl
  have hsh := get_shape c k PyValue.none
  have hcw := get_cacheWF c k PyValue.none hwf
  rcases hG : c.get k PyValue.none with ⟨gv, gc⟩
  rw [hG] at hsh hcw
  dsimp only at hsh hcw
  have hdata : gc.data = c.data := by rw [hsh]
  have hmeta : gc.metadata = c.metadata := by rw [hsh]
  rcases hcc : gc.cache with _ | cm
  · have hfin : c.set k v Option.none now =
        (.ok (), Config.notify
          { gc with
              data := d2,
              metadata := aset c.metadata k (defaultMeta .memory .medium now) }
          k gv v) := by
      rw [hbody]
      unfold Config.setBody
      simp only [hG, hsen, Bool.false_eq_true, if_false, hdata, hmeta, hset,
        hcc, Option.getD_none]
    rw [hfin]
    refine ⟨rfl, ?_⟩
    simp only [Config.notify, Config.get, Config.getFromData,
      Config.isEncryptedKey, Config.cacheStore, getNested, hcc, hmfin, hget,
      hdm, Bool.false_eq_true, if_false, Option.getD_some]
  · cases cm with
    | failing =>
        rw [hcc] at hcw
        simp [CacheWF] at hcw
    | mem l =>
        have hnd : (l.map Prod.fst).Nodup := by
          rw [hcc] at hcw
          simpa [CacheWF] using hcw
        have hfin : c.set k v Option.none now =
            (.ok (), Config.notify
              { gc with
                  data := d2,
                  metadata := aset c.metadata k (defaultMeta .memory .medium now),
                  cache := some (.mem (aerase l k)) }
              k gv v) := by
          rw [hbody]
          unfold Config.setBody
          simp only [hG, hsen, Bool.false_eq_true, if_false, hdata, hmeta, hset,
            hcc, CacheModel.invalidate, Option.getD_none]
        rw [hfin]
        refine ⟨rfl, ?_⟩
        have hmiss : alookup (aerase l k) k = Option.none :=
          alookup_aerase_self l k hnd
        by_cases hvn : v.isNone = true <;>
          simp only [Config.notify, Config.get, CacheModel.get, Config.getFromData,
            Config.isEncryptedKey, Config.cacheStore, CacheModel.put, getNested,
            hmiss, hmfin, hget, hdm, Bool.false_eq_true, if_false, hvn,
            if_true, Option.getD_some]

theorem c8_witness :
    (freshC.set "a.b" (.int 5) Option.none 0).1 = .ok () ∧
    ((freshC.set "a.b" (.int 5) Option.none 0).2.get "a.b" .none).1 = .int 5 :=
  c8_plain_set_get_roundtrip freshC "a.b" (.int 5) 0
    [("a", .dict [("b", .int 5)])] rfl rfl (fun val h => nomatch h) trivial rfl

end BK
